import Mathlib

/-!
Verification of the fflogs scraping program (`data_scraping.py`).

The repository holds two variants of the `Scraping` class:
* the skip-based variant (`src/src/fflogs-study-project/data/data_scraping.py`),
  whose `check_comp` returns a `bool` and whose `parse_logs` skips a log on a
  composition mismatch; and
* the older abort-based variant (`src/fflogs-study-project/data/data_scraping.py`),
  whose constructor validates the encounter-type string and whose `check_comp`
  raises on a mismatch.

The definitions below embed both, shallowly: the browser driver is replaced by
an explicit event trace (navigations, CSV-export key presses, progress prints,
driver shutdown), and the per-log page environment (what the composition table
contains, whether each element wait succeeds) is an explicit input.
-/

namespace FFLogs

/-! ## Python string primitives used by the source -/

/-- The double-quote character, written via its code point. -/
def quoteChar : Char := Char.ofNat 34

/-- The character class `[a-zA-Z]` of the regex in `check_comp`. -/
def isAsciiLetter (c : Char) : Bool :=
  (65 ≤ c.toNat && c.toNat ≤ 90) || (97 ≤ c.toNat && c.toNat ≤ 122)

/-- One step of Python's `re.findall("\x22[a-zA-Z]*\x22", s)` scan, embedded on
the character list. `fuel` bounds the recursion; every recursive call strictly
shrinks the list, so `fuel = s.length` is always enough. A match is an opening
quote, a maximal (greedy) run of ASCII letters, and a closing quote; on a failed
match the scan resumes one character after the failed start, on a successful
match it resumes after the closing quote (non-overlapping, left to right). -/
def findQuotedAux : Nat → List Char → List (List Char)
  | 0, _ => []
  | _ + 1, [] => []
  | fuel + 1, c :: rest =>
    if c = quoteChar then
      let run := rest.takeWhile isAsciiLetter
      match rest.drop run.length with
      | d :: tail =>
        if d = quoteChar then (quoteChar :: (run ++ [quoteChar])) :: findQuotedAux fuel tail
        else findQuotedAux fuel rest
      | [] => findQuotedAux fuel rest
    else findQuotedAux fuel rest

/-- `re.findall("\x22[a-zA-Z]*\x22", s)`: the list of matched substrings. -/
def find_quoted (s : String) : List String :=
  (findQuotedAux s.data.length s.data).map (fun l => ⟨l⟩)

/-- Python's `str.strip
('\x22')`: remove every leading and trailing double-quote character. -/
def pyStripQuote (s : String) : String :=
  ⟨((s.data.dropWhile (· = quoteChar)).reverse.dropWhile (· = quoteChar)).reverse⟩

/-- The token extraction of `check_comp`:
`comp = [s.strip('\x22') for s in re.findall("\x22[a-zA-Z]*\x22", comp_html)]`. -/
def extract_comp (comp_html : String) : List String :=
  (find_quoted comp_html).map pyStripQuote

/-! ## Python `sorted` on lists of strings -/

/-- Lexicographic (code-point) less-or-equal on character lists — the order
Python uses to compare strings. -/
def strLeB : List Char → List Char → Bool
  | [], _ => true
  | _ :: _, [] => false
  | a :: as, b :: bs =>
    if a.toNat < b.toNat then true
    else if b.toNat < a.toNat then false
    else strLeB as bs

/-- The comparison `sorted` uses on `str` values, as a proposition. -/
def pyLe (a b : String) : Prop := strLeB a.data b.data = true

instance : DecidableRel pyLe := fun a b => by
  unfold pyLe; infer_instance

/-- Python's `sorted` on a list of strings. Python uses a stable sort over a
total order, so any sorting algorithm yields the same list; we use insertion
sort, which the kernel can evaluate. -/
def pySorted (l : List String) : List String := List.insertionSort pyLe l

/-! ## `check_comp` (skip-based variant, lines 162-182)

State is the `self.comp` attribute (a tuple of strings, embedded as a list).
`check_comp` returns the `bool` result together with the state after the call.
-/

/-- `check_comp` of the skip-based variant: extract the tokens, compare with the
stored composition when one is set, and either reject (state unchanged) or
accept (state overwritten with the observed tuple). -/
def check_comp (self_comp : List String) (comp_html : String) : Bool × List String :=
  let comp := extract_comp comp_html
  if 0 < self_comp.length ∧ pySorted self_comp ≠ pySorted comp then
    (false, self_comp)
  else
    (true, comp)

/-! ## URL transformations (`to_summary`, `to_damage_dealt`, `to_healing_done`) -/

/-- The URL computed by `to_summary` (lines 142-152): append `#boss=-2`, then
`&wipes=1` when `enc_type` is the string `wipes`, `&wipes=2` when it is
`kills`, and nothing otherwise. -/
def to_summary_url (log_url : String) (enc_type : String) : String :=
  let url := log_url ++ "#boss=-2"
  if enc_type = "wipes" then url ++ "&wipes=1"
  else if enc_type = "kills" then url ++ "&wipes=2"
  else url

/-- The URL computed by `to_damage_dealt` (lines 184-188) from the current URL. -/
def to_damage_dealt_url (sum_url : String) : String :=
  sum_url ++ "&type=damage-done"

/-- `startsWithL p s`: `p` is an initial segment of `s`. -/
def startsWithL : List Char → List Char → Bool
  | [], _ => true
  | _ :: _, [] => false
  | a :: as, b :: bs => a = b && startsWithL as bs

/-- `hasSubstr p s`: `p` occurs as a contiguous substring of `s`. -/
def hasSubstr (p : List Char) : List Char → Bool
  | [] => startsWithL p []
  | c :: cs => startsWithL p (c :: cs) || hasSubstr p cs

/-- Python's `str.replace(old, new)` scan on character lists: replace every
non-overlapping occurrence of `old`, scanning left to right. `fuel` bounds the
recursion; each step strictly shrinks the list (for non-empty `old`), so
`fuel = s.length` is always enough. -/
def replaceAllAux (old new : List Char) : Nat → List Char → List Char
  | 0, s => s
  | _ + 1, [] => []
  | fuel + 1, c :: cs =>
    if old ≠ [] && startsWithL old (c :: cs) then
      new ++ replaceAllAux old new fuel ((c :: cs).drop old.length)
    else
      c :: replaceAllAux old new fuel cs

/-- Python's `str.replace(old, new)` for a non-empty `old`. -/
def pyReplace (s old new : String) : String :=
  ⟨replaceAllAux old.data new.data s.data.length s.data⟩

/-- The URL computed by `to_healing_done` (lines 195-199) from the current URL:
`dd_url.replace("&type=damage-done", "&type=healing")`. -/
def to_healing_done_url (dd_url : String) : String :=
  pyReplace dd_url "&type=damage-done" "&type=healing"

/-! ## The batch orchestrator `parse_logs` (skip-based variant, lines 93-111)

The browser driver is replaced by an event trace. The per-log page environment
records what the driver would deliver: the composition-table HTML of the
summary page and whether each of the three element waits (`wait_until` in
`get_comp`, `get_damage_dealt`, `get_healing_done`) finds its element before
the timeout. A failed wait raises in Python; in the embedding it ends the run
with `ok = false` and, exactly as in the source (which has no try/finally),
without a `quitDriver` event. The driver's current URL is the URL of the last
`driver.get`. -/

/-- Observable driver/console events of one batch run. -/
inductive Ev where
  | navigate : String → Ev
  | exportDamage : Ev
  | exportHealing : Ev
  | printBegin : Nat → Nat → Ev
  | printSkip : Ev
  | printFinish : Nat → Nat → Ev
  | quitDriver : Ev
deriving DecidableEq

/-- What the page delivers for one log: the summary page's composition HTML and
the success of each element wait. -/
structure LogEnv where
  compHtml : String
  summaryWaitOk : Bool
  damageBtnOk : Bool
  healingBtnOk : Bool
deriving DecidableEq

/-- The mutable attributes of `Scraping` that `parse_logs` reads and writes:
`self.comp` and the loop counter. -/
structure St where
  comp : List String
  counter : Nat
deriving DecidableEq

/-- How one loop iteration ended. -/
inductive StepKind where
  | fatal : StepKind
  | skipped : StepKind
  | finished : StepKind
deriving DecidableEq

/-- Events, post-state and outcome of one loop iteration. -/
structure StepOut where
  events : List Ev
  st : St
  kind : StepKind
deriving DecidableEq

/-- One iteration of the `for log in self.logs` loop (lines 97-108):
print the progress line, navigate to the summary page, wait for the
composition table (fatal on timeout), run `check_comp`, and either skip or
navigate/export the damage and healing tabs (each wait fatal on timeout). -/
def processLog (encType : String) (maxN : Nat) (st : St) (log : String)
    (env : LogEnv) : StepOut :=
  let sumUrl := to_summary_url log encType
  let evs := [Ev.printBegin st.counter maxN, Ev.navigate sumUrl]
  if env.summaryWaitOk = false then
    ⟨evs, st, StepKind.fatal⟩
  else
    let res := check_comp st.comp env.compHtml
    if res.1 = false then
      ⟨evs ++ [Ev.printSkip], ⟨res.2, st.counter⟩, StepKind.skipped⟩
    else
      let st1 : St := ⟨res.2, st.counter⟩
      let ddUrl := to_damage_dealt_url sumUrl
      if env.damageBtnOk = false then
        ⟨evs ++ [Ev.navigate ddUrl], st1, StepKind.fatal⟩
      else
        let hdUrl := to_healing_done_url ddUrl
        if env.healingBtnOk = false then
          ⟨evs ++ [Ev.navigate ddUrl, Ev.exportDamage, Ev.navigate hdUrl], st1,
            StepKind.fatal⟩
        else
          ⟨evs ++ [Ev.navigate ddUrl, Ev.exportDamage, Ev.navigate hdUrl,
              Ev.exportHealing, Ev.printFinish st.counter maxN],
            ⟨res.2, st.counter + 1⟩, StepKind.finished⟩

/-- Trace and outcome of a batch run. `ok = false` means an uncaught exception
left `parse_logs`. -/
structure RunOut where
  events : List Ev
  ok : Bool
deriving DecidableEq

/-- The loop of `parse_logs` over the remaining logs. On normal exhaustion of
the list the final `self.quit()` (line 111) emits `quitDriver`; a fatal wait
raises immediately, so no further events — in particular no `quitDriver` —
follow it. -/
def parseLogsAux (encType : String) (maxN : Nat) : St → List (String × LogEnv) → RunOut
  | _, [] => ⟨[Ev.quitDriver], true⟩
  | st, (log, env) :: rest =>
    let s := processLog encType maxN st log env
    if s.kind = StepKind.fatal then
      ⟨s.events, false⟩
    else
      let r := parseLogsAux encType maxN s.st rest
      ⟨s.events ++ r.events, r.ok⟩

/-- `parse_logs` on a fresh `Scraping` object: `self.comp = ()`, `counter = 1`,
`max = len(self.logs)`. -/
def parse_logs (encType : String) (logs : List (String × LogEnv)) : RunOut :=
  parseLogsAux encType logs.length ⟨[], 1⟩ logs

/-- The per-iteration outcomes of the loop, in order (stopping after a fatal
iteration, which is still included). Same recursion as `parseLogsAux`. -/
def stepsAux (encType : String) (maxN : Nat) : St → List (String × LogEnv) → List StepOut
  | _, [] => []
  | st, (log, env) :: rest =>
    let s := processLog encType maxN st log env
    if s.kind = StepKind.fatal then [s]
    else s :: stepsAux encType maxN s.st rest

/-- The counters of the `printBegin` events of a trace, in order. -/
def beginsOf (evs : List Ev) : List Nat :=
  evs.filterMap (fun e =>
    match e with
    | Ev.printBegin c _ => some c
    | _ => none)

/-- Number of occurrences of one event in a trace. -/
def countEv (e : Ev) (evs : List Ev) : Nat := evs.count e

/-- Number of navigation events in a trace. -/
def countNavs (evs : List Ev) : Nat :=
  (evs.filter (fun e =>
    match e with
    | Ev.navigate _ => true
    | _ => false)).length

/-! ## The constructors

`Scraping.__init__` of the skip-based variant (lines 38-91) clears the csv
download directory with `os.unlink` before starting the Firefox driver; it does
not validate the encounter-type string. `Scraping.__init__` of the abort-based
variant (lines 32-59) validates the encounter-type string and raises
`AttributeError` before the driver is started. -/

/-- Observable events of object construction. -/
inductive InitEv where
  | unlinkFile : String → InitEv
  | startDriver : InitEv
  | installAddon : InitEv
deriving DecidableEq

/-- `os.path.join(dirname, name)` for our inputs. -/
def pathJoin (dir name : String) : String := dir ++ "/" ++ name

/-- Construction events of the skip-based variant's `__init__` (lines 56-91),
given the listing of the csv directory: unlink every listed file, then start
the driver and install the ad-block add-on. -/
def scraping_init_events (csvPath : String) (csvFiles : List String) : List InitEv :=
  (csvFiles.map (fun f => InitEv.unlinkFile (pathJoin csvPath f))) ++
    [InitEv.startDriver, InitEv.installAddon]

/-- The encounter-type validation of the abort-based variant's `__init__`
(lines 45-52): map the three recognized strings to `self.enc_type`, raise
`AttributeError` on anything else. -/
def init_enc_type (encounters_type : String) : Except String Nat :=
  if encounters_type = "wipes" then Except.ok 0
  else if encounters_type = "kills" then Except.ok 1
  else if encounters_type = "all" then Except.ok 2
  else Except.error "Select a valid encounter type."

/-- The abort-based variant's construction: the validation runs first; only
when it passes is the driver started. The construction itself performs no
navigation: the first `driver.get` can only happen in a later method call on
the successfully constructed object. -/
def scraping2_init (encounters_type : String) : Except String (Nat × List InitEv) :=
  match init_enc_type encounters_type with
  | Except.error e => Except.error e
  | Except.ok n => Except.ok (n, [InitEv.startDriver])

/-! ## Order lemmas for the comparison Python's `sorted` uses -/

theorem strLeB_total : ∀ x y : List Char, strLeB x y = true ∨ strLeB y x = true
  | [], _ => Or.inl rfl
  | _ :: _, [] => Or.inr rfl
  | a :: as, b :: bs => by
    simp only [strLeB]
    rcases Nat.lt_trichotomy a.toNat b.toNat with h | h | h
    · left; rw [if_pos h]
    · rw [if_neg (by omega), if_neg (by omega), if_neg (by omega), if_neg (by omega)]
      exact strLeB_total as bs
    · right; rw [if_pos h]

theorem strLeB_trans : ∀ x y z : List Char,
    strLeB x y = true → strLeB y z = true → strLeB x z = true
  | [], _, _, _, _ => rfl
  | _ :: _, [], _, hxy, _ => by simp [strLeB] at hxy
  | _ :: _, _ :: _, [], _, hyz => by simp [strLeB] at hyz
  | a :: as, b :: bs, c :: cs, hxy, hyz => by
    simp only [strLeB] at hxy hyz ⊢
    rcases Nat.lt_trichotomy a.toNat b.toNat with h1 | h1 | h1
    · rcases Nat.lt_trichotomy b.toNat c.toNat with h2 | h2 | h2
      · rw [if_pos (by omega)]
      · rw [if_pos (by omega)]
      · rw [if_neg (by omega), if_pos h2] at hyz; exact Bool.noConfusion hyz
    · rw [if_neg (by omega), if_neg (by omega)] at hxy
      rcases Nat.lt_trichotomy b.toNat c.toNat with h2 | h2 | h2
      · rw [if_pos (by omega)]
      · rw [if_neg (by omega), if_neg (by omega)] at hyz
        rw [if_neg (by omega), if_neg (by omega)]
        exact strLeB_trans as bs cs hxy hyz
      · rw [if_neg (by omega), if_pos h2] at hyz; exact Bool.noConfusion hyz
    · rw [if_neg (by omega), if_pos h1] at hxy; exact Bool.noConfusion hxy

theorem strLeB_antisymm : ∀ x y : List Char,
    strLeB x y = true → strLeB y x = true → x = y
  | [], [], _, _ => rfl
  | [], _ :: _, _, hyx => by simp [strLeB] at hyx
  | _ :: _, [], hxy, _ => by simp [strLeB] at hxy
  | a :: as, b :: bs, hxy, hyx => by
    simp only [strLeB] at hxy hyx
    rcases Nat.lt_trichotomy a.toNat b.toNat with h | h | h
    · rw [if_neg (by omega), if_pos h] at hyx; exact Bool.noConfusion hyx
    · rw [if_neg (by omega), if_neg (by omega)] at hxy hyx
      have hab : a = b := Char.ext (UInt32.ext h)
      rw [hab, strLeB_antisymm as bs hxy hyx]
    · rw [if_neg (by omega), if_pos h] at hxy; exact Bool.noConfusion hxy

instance : IsTrans String pyLe :=
  ⟨fun a b c hab hbc => strLeB_trans a.data b.data c.data hab hbc⟩

instance : IsTotal String pyLe :=
  ⟨fun a b => strLeB_total a.data b.data⟩

instance : IsAntisymm String pyLe :=
  ⟨fun a b hab hba => by
    have h := strLeB_antisymm a.data b.data hab hba
    cases a; cases b; exact congrArg String.mk h⟩

/-- Two lists of strings have the same `sorted` image exactly when they are
permutations of one another — i.e. equal as multisets. -/
theorem pySorted_eq_iff {a b : List String} : pySorted a = pySorted b ↔ a.Perm b := by
  unfold pySorted
  constructor
  · intro h
    have h1 : a.Perm (List.insertionSort pyLe a) := (List.perm_insertionSort pyLe a).symm
    have h2 : (List.insertionSort pyLe b).Perm b := List.perm_insertionSort pyLe b
    rw [h] at h1
    exact h1.trans h2
  · intro h
    exact List.eq_of_perm_of_sorted
      ((List.perm_insertionSort pyLe a).trans (h.trans (List.perm_insertionSort pyLe b).symm))
      (List.sorted_insertionSort pyLe a) (List.sorted_insertionSort pyLe b)

/-! ## C1, C4, C5 -/

/-- Unfolding equation for `check_comp`. -/
theorem check_comp_eq (ref : List String) (html : String) :
    check_comp ref html =
      if 0 < ref.length ∧ pySorted ref ≠ pySorted (extract_comp html)
      then (false, ref) else (true, extract_comp html) := rfl

/-- C1: `check_comp` satisfies its contract: when `self.comp` is unset (the
empty tuple) the call stores the observed tokens and returns true; when it is
set the call returns true exactly when the sorted token sequence of the
reference equals the sorted token sequence of the observed composition —
equivalently, exactly when the two are equal as multisets (order irrelevant,
duplicates counted). -/
theorem check_comp_contract (ref : List String) (html : String) :
    (ref = [] → check_comp ref html = (true, extract_comp html)) ∧
    (ref ≠ [] →
      (((check_comp ref html).1 = true) ↔ pySorted ref = pySorted (extract_comp html)) ∧
      (((check_comp ref html).1 = true) ↔ (extract_comp html).Perm ref)) := by
  constructor
  · intro h
    subst h
    rw [check_comp_eq, if_neg (by simp)]
  · intro h
    have hlen : 0 < ref.length := List.length_pos.mpr h
    by_cases hs : pySorted ref = pySorted (extract_comp html)
    · have hc : ¬ (0 < ref.length ∧ pySorted ref ≠ pySorted (extract_comp html)) := by
        intro hc; exact hc.2 hs
      rw [check_comp_eq, if_neg hc]
      constructor
      · exact Iff.intro (fun _ => hs) (fun _ => rfl)
      · exact Iff.intro (fun _ => pySorted_eq_iff.mp hs.symm) (fun _ => rfl)
    · have hc : (0 < ref.length ∧ pySorted ref ≠ pySorted (extract_comp html)) :=
        ⟨hlen, hs⟩
      rw [check_comp_eq, if_pos hc]
      constructor
      · exact Iff.intro (fun hft => Bool.noConfusion hft) (fun hsort => absurd hsort hs)
      · exact Iff.intro (fun hft => Bool.noConfusion hft)
          (fun (hp : (extract_comp html).Perm ref) =>
            absurd (pySorted_eq_iff.mpr hp.symm) hs)

/-- C1 witness: priming with an unset reference accepts and stores the tokens;
a permuted composition is then accepted again. -/
theorem check_comp_contract_witness :
    check_comp [] "\"Paladin\",\"Warrior\"" = (true, ["Paladin", "Warrior"]) ∧
    (check_comp ["Paladin", "Warrior"] "\"Warrior\",\"Paladin\"").1 = true := by
  constructor
  · have h := (check_comp_contract [] "\"Paladin\",\"Warrior\"").1 rfl
    rw [h]; decide
  · have h := ((check_comp_contract ["Paladin", "Warrior"] "\"Warrior\",\"Paladin\"").2
      (by decide)).1
    exact h.mpr (by decide)

/-- C4: the summary URL is exactly the grammar of the spec: the log URL
followed by the boss fragment, then the wipes parameter only for the wipes-only
and kills-only filters. (It is a pure function of its two arguments by
construction.) -/
theorem to_summary_grammar (logUrl : String) :
    to_summary_url logUrl "all" = logUrl ++ "#boss=-2" ∧
    to_summary_url logUrl "wipes" = logUrl ++ "#boss=-2" ++ "&wipes=1" ∧
    to_summary_url logUrl "kills" = logUrl ++ "#boss=-2" ++ "&wipes=2" :=
  ⟨rfl, rfl, rfl⟩

/-- C5 counterexample: with the reference set to (Paladin, Warrior), a call
observing the same multiset in a different order returns true but overwrites
the stored reference with the observed tuple — the stored value changes, so
the claim that the reference is never mutated after being set is false. -/
theorem check_comp_counter_mutation :
    (check_comp ["Paladin", "Warrior"] "\"Warrior\", \"Paladin\"").1 = true ∧
    (check_comp ["Paladin", "Warrior"] "\"Warrior\", \"Paladin\"").2 ≠
      ["Paladin", "Warrior"] := by decide

/-- C5 amended: once the reference is set, a rejecting call leaves it
unchanged, while an accepting call overwrites it with the observed token
tuple — a value that is sorted-equal to (a permutation of) the previous
reference, though not necessarily the identical sequence. -/
theorem check_comp_reference_after_call (ref : List String) (html : String)
    (h : ref ≠ []) :
    ((check_comp ref html).1 = false → (check_comp ref html).2 = ref) ∧
    ((check_comp ref html).1 = true →
      (check_comp ref html).2 = extract_comp html ∧
      pySorted (check_comp ref html).2 = pySorted ref ∧
      ((check_comp ref html).2).Perm ref) := by
  have hlen : 0 < ref.length := List.length_pos.mpr h
  by_cases hs : pySorted ref = pySorted (extract_comp html)
  · have hc : ¬ (0 < ref.length ∧ pySorted ref ≠ pySorted (extract_comp html)) := by
      intro hc; exact hc.2 hs
    rw [check_comp_eq, if_neg hc]
    constructor
    · intro hft; exact Bool.noConfusion hft
    · intro _; exact ⟨rfl, hs.symm, pySorted_eq_iff.mp hs.symm⟩
  · have hc : (0 < ref.length ∧ pySorted ref ≠ pySorted (extract_comp html)) :=
      ⟨hlen, hs⟩
    rw [check_comp_eq, if_pos hc]
    constructor
    · intro _; rfl
    · intro htf; exact Bool.noConfusion htf

/-- C5 witness: a rejecting call with a set reference leaves the reference
unchanged. -/
theorem check_comp_reference_after_call_witness :
    (check_comp ["Paladin"] "\"Scholar\"").2 = ["Paladin"] :=
  (check_comp_reference_after_call ["Paladin"] "\"Scholar\"" (by decide)).1 (by decide)

/-! ## C2, C3, C7 -/

theorem quitDriver_not_in_processLog (encType : String) (maxN : Nat) (st : St)
    (log : String) (env : LogEnv) :
    Ev.quitDriver ∉ (processLog encType maxN st log env).events := by
  unfold processLog
  by_cases h1 : env.summaryWaitOk = false
  · simp [h1]
  · by_cases h2 : (check_comp st.comp env.compHtml).1 = false
    · simp [h1, h2]
    · by_cases h3 : env.damageBtnOk = false
      · simp [h1, h2, h3]
      · by_cases h4 : env.healingBtnOk = false
        · simp [h1, h2, h3, h4]
        · simp [h1, h2, h3, h4]

theorem countEv_quit_parseLogsAux (encType : String) (maxN : Nat) :
    ∀ (logs : List (String × LogEnv)) (st : St),
      countEv Ev.quitDriver (parseLogsAux encType maxN st logs).events =
        if (parseLogsAux encType maxN st logs).ok then 1 else 0
  | [], st => by simp [parseLogsAux, countEv]
  | (log, env) :: rest, st => by
    by_cases hf : (processLog encType maxN st log env).kind = StepKind.fatal
    · simp only [parseLogsAux, if_pos hf]
      simp [countEv,
        List.count_eq_zero.mpr (quitDriver_not_in_processLog encType maxN st log env)]
    · simp only [parseLogsAux, if_neg hf]
      simp only [countEv, List.count_append]
      rw [List.count_eq_zero.mpr (quitDriver_not_in_processLog encType maxN st log env)]
      rw [Nat.zero_add]
      exact countEv_quit_parseLogsAux encType maxN rest (processLog encType maxN st log env).st

/-- C3 amended: a batch run that terminates normally (all logs completed or
skipped, including the empty batch) performs exactly one shutdown; a run ended
by a fatal element-location failure propagates the error without any shutdown
— the browser session is leaked, not closed. -/
theorem parse_logs_shutdown_count (encType : String) (logs : List (String × LogEnv)) :
    countEv Ev.quitDriver (parse_logs encType logs).events =
      if (parse_logs encType logs).ok then 1 else 0 :=
  countEv_quit_parseLogsAux encType logs.length logs ⟨[], 1⟩

/-- C3 counterexample: a batch of one log whose composition-table wait times
out ends with an error and with zero shutdown calls — the claim that every
execution path performs exactly one shutdown is false. -/
theorem parse_logs_fatal_leaks_session :
    (parse_logs "all" [("log1", ⟨"", false, true, true⟩)]).ok = false ∧
    countEv Ev.quitDriver
      (parse_logs "all" [("log1", ⟨"", false, true, true⟩)]).events = 0 := by decide

/-- C7: on an empty log list the run ends at once: the trace is a single
shutdown event — zero navigations, exactly one shutdown, normal outcome. -/
theorem parse_logs_empty (encType : String) :
    parse_logs encType [] = ⟨[Ev.quitDriver], true⟩ ∧
    countNavs (parse_logs encType []).events = 0 ∧
    countEv Ev.quitDriver (parse_logs encType []).events = 1 :=
  ⟨rfl, rfl, rfl⟩

/-- C2: a composition mismatch is not an error: when the composition-table
wait succeeds, the reference is set, and the observed composition differs from
it as a multiset, `check_comp` returns false, the iteration ends as a skip (not
a fatal error), no damage or healing export event is emitted for the log, the
reference is unchanged, and the batch loop continues with the remaining logs. -/
theorem composition_mismatch_skips (encType : String) (maxN : Nat) (st : St)
    (log : String) (env : LogEnv) (rest : List (String × LogEnv))
    (hw : env.summaryWaitOk = true)
    (href : st.comp ≠ [])
    (hmis : pySorted (extract_comp env.compHtml) ≠ pySorted st.comp) :
    (check_comp st.comp env.compHtml).1 = false ∧
    (processLog encType maxN st log env).kind = StepKind.skipped ∧
    Ev.exportDamage ∉ (processLog encType maxN st log env).events ∧
    Ev.exportHealing ∉ (processLog encType maxN st log env).events ∧
    (processLog encType maxN st log env).st.comp = st.comp ∧
    parseLogsAux encType maxN st ((log, env) :: rest) =
      ⟨(processLog encType maxN st log env).events ++
        (parseLogsAux encType maxN (processLog encType maxN st log env).st rest).events,
       (parseLogsAux encType maxN (processLog encType maxN st log env).st rest).ok⟩ := by
  have hchk : check_comp st.comp env.compHtml = (false, st.comp) := by
    rw [check_comp_eq,
      if_pos ⟨List.length_pos.mpr href, fun he => hmis he.symm⟩]
  have hplog : processLog encType maxN st log env =
      ⟨[Ev.printBegin st.counter maxN, Ev.navigate (to_summary_url log encType),
        Ev.printSkip], ⟨st.comp, st.counter⟩, StepKind.skipped⟩ := by
    simp [processLog, hw, hchk]
  refine ⟨by rw [hchk], ?_, ?_, ?_, ?_, ?_⟩
  · rw [hplog]
  · rw [hplog]; simp
  · rw [hplog]; simp
  · rw [hplog]
  · simp only [parseLogsAux]
    rw [hplog]
    simp

/-- C2 witness: a concrete mismatching log is skipped, not fatal. -/
theorem composition_mismatch_skips_witness :
    (processLog "all" 2 ⟨["Paladin"], 1⟩ "L" ⟨"\"Scholar\"", true, true, true⟩).kind =
      StepKind.skipped :=
  (composition_mismatch_skips "all" 2 ⟨["Paladin"], 1⟩ "L"
    ⟨"\"Scholar\"", true, true, true⟩ [] rfl (by decide) (by decide)).2.1

/-! ## C10: the progress counter -/

/-- All three element waits of a log's iteration succeed. -/
def envOk (env : LogEnv) : Bool :=
  env.summaryWaitOk && env.damageBtnOk && env.healingBtnOk

/-- The per-iteration outcomes of a run. -/
def kindsOf (encType : String) (maxN : Nat) (st : St)
    (logs : List (String × LogEnv)) : List StepKind :=
  (stepsAux encType maxN st logs).map (fun s => s.kind)

/-- Number of finished iterations. -/
def countFin (ks : List StepKind) : Nat :=
  (ks.filter (fun k =>
    match k with
    | StepKind.finished => true
    | _ => false)).length

/-- The counter values the loop announces, starting at `c`: each iteration
announces the current counter, and only a finished iteration increments it. -/
def countersFrom (c : Nat) : List StepKind → List Nat
  | [] => []
  | k :: ks => c :: countersFrom (if k = StepKind.finished then c + 1 else c) ks

/-- The announced counters of a whole batch run. -/
def runBegins (encType : String) (logs : List (String × LogEnv)) : List Nat :=
  beginsOf (parse_logs encType logs).events

/-- The per-iteration outcomes of a whole batch run. -/
def runKinds (encType : String) (logs : List (String × LogEnv)) : List StepKind :=
  kindsOf encType logs.length ⟨[], 1⟩ logs

theorem envOk_spec {env : LogEnv} (h : envOk env = true) :
    env.summaryWaitOk = true ∧ env.damageBtnOk = true ∧ env.healingBtnOk = true := by
  simp [envOk] at h
  exact ⟨h.1.1, h.1.2, h.2⟩

theorem processLog_not_fatal (encType : String) (maxN : Nat) (st : St)
    (log : String) (env : LogEnv) (h : envOk env = true) :
    (processLog encType maxN st log env).kind ≠ StepKind.fatal := by
  have h1 : env.summaryWaitOk = true := (envOk_spec h).1
  have h3 : env.damageBtnOk = true := (envOk_spec h).2.1
  have h4 : env.healingBtnOk = true := (envOk_spec h).2.2
  unfold processLog
  by_cases h2 : (check_comp st.comp env.compHtml).1 = false
  · simp [h1, h2, h3, h4]
  · simp [h1, h2, h3, h4]

theorem beginsOf_processLog (encType : String) (maxN : Nat) (st : St)
    (log : String) (env : LogEnv) :
    beginsOf (processLog encType maxN st log env).events = [st.counter] := by
  unfold processLog
  by_cases h1 : env.summaryWaitOk = false
  · simp [h1, beginsOf]
  · by_cases h2 : (check_comp st.comp env.compHtml).1 = false
    · simp [h1, h2, beginsOf]
    · by_cases h3 : env.damageBtnOk = false
      · simp [h1, h2, h3, beginsOf]
      · by_cases h4 : env.healingBtnOk = false
        · simp [h1, h2, h3, h4, beginsOf]
        · simp [h1, h2, h3, h4, beginsOf]

theorem processLog_counter (encType : String) (maxN : Nat) (st : St)
    (log : String) (env : LogEnv) :
    (processLog encType maxN st log env).st.counter =
      if (processLog encType maxN st log env).kind = StepKind.finished
      then st.counter + 1 else st.counter := by
  unfold processLog
  by_cases h1 : env.summaryWaitOk = false
  · simp [h1]
  · by_cases h2 : (check_comp st.comp env.compHtml).1 = false
    · simp [h1, h2]
    · by_cases h3 : env.damageBtnOk = false
      · simp [h1, h2, h3]
      · by_cases h4 : env.healingBtnOk = false
        · simp [h1, h2, h3, h4]
        · simp [h1, h2, h3, h4]

theorem beginsOf_parseLogsAux (encType : String) (maxN : Nat) :
    ∀ (logs : List (String × LogEnv)) (st : St),
      (∀ p ∈ logs, envOk p.2 = true) →
      beginsOf (parseLogsAux encType maxN st logs).events =
        countersFrom st.counter (kindsOf encType maxN st logs)
  | [], st, _ => by simp [parseLogsAux, kindsOf, stepsAux, beginsOf, countersFrom]
  | (log, env) :: rest, st, h => by
    have henv : envOk env = true := h (log, env) (by simp)
    have hnf : (processLog encType maxN st log env).kind ≠ StepKind.fatal :=
      processLog_not_fatal encType maxN st log env henv
    have hrest : ∀ p ∈ rest, envOk p.2 = true := fun p hp => h p (by simp [hp])
    simp only [parseLogsAux, kindsOf, stepsAux, if_neg hnf]
    rw [List.map_cons]
    show beginsOf ((processLog encType maxN st log env).events ++
        (parseLogsAux encType maxN (processLog encType maxN st log env).st rest).events) =
      countersFrom st.counter ((processLog encType maxN st log env).kind ::
        kindsOf encType maxN (processLog encType maxN st log env).st rest)
    rw [beginsOf, List.filterMap_append]
    rw [show (List.filterMap _ (processLog encType maxN st log env).events) =
      beginsOf (processLog encType maxN st log env).events from rfl]
    rw [beginsOf_processLog]
    rw [countersFrom]
    have hrec := beginsOf_parseLogsAux encType maxN rest
      (processLog encType maxN st log env).st hrest
    rw [show (List.filterMap _
        (parseLogsAux encType maxN (processLog encType maxN st log env).st rest).events) =
      beginsOf (parseLogsAux encType maxN
        (processLog encType maxN st log env).st rest).events from rfl]
    rw [hrec, ← processLog_counter encType maxN st log env]
    rfl

theorem countersFrom_getElem : ∀ (ks : List StepKind) (c i : Nat), i < ks.length →
    (countersFrom c ks)[i]? = some (c + countFin (ks.take i))
  | [], _, i, hi => absurd hi (by simp)
  | k :: ks, c, 0, _ => by simp [countersFrom, countFin]
  | k :: ks, c, i + 1, hi => by
    rw [countersFrom]
    rw [List.getElem?_cons_succ]
    rw [countersFrom_getElem ks _ i (by simpa using hi)]
    rcases hk : k with _ | _ | _ <;>
      simp [countFin, List.take, Nat.add_assoc, Nat.add_comm 1]

/-- No iteration of an all-waits-succeed run is fatal. -/
theorem kindsOf_no_fatal (encType : String) (maxN : Nat) :
    ∀ (logs : List (String × LogEnv)) (st : St),
      (∀ p ∈ logs, envOk p.2 = true) →
      ∀ k ∈ kindsOf encType maxN st logs, k ≠ StepKind.fatal
  | [], _, _ => by simp [kindsOf, stepsAux]
  | (log, env) :: rest, st, h => by
    have henv : envOk env = true := h (log, env) (by simp)
    have hnf : (processLog encType maxN st log env).kind ≠ StepKind.fatal :=
      processLog_not_fatal encType maxN st log env henv
    have hrest : ∀ p ∈ rest, envOk p.2 = true := fun p hp => h p (by simp [hp])
    simp only [kindsOf, stepsAux, if_neg hnf, List.map_cons]
    intro k hk
    rcases List.mem_cons.mp hk with hk | hk
    · rw [hk]; exact hnf
    · exact kindsOf_no_fatal encType maxN rest
        (processLog encType maxN st log env).st hrest k hk

/-- Number of skipped iterations. -/
def countSkip (ks : List StepKind) : Nat :=
  (ks.filter (fun k =>
    match k with
    | StepKind.skipped => true
    | _ => false)).length

theorem countFin_add_countSkip : ∀ ks : List StepKind,
    (∀ k ∈ ks, k ≠ StepKind.fatal) → countFin ks + countSkip ks = ks.length
  | [], _ => rfl
  | k :: ks, h => by
    have hrest := countFin_add_countSkip ks (fun k' hk' => h k' (by simp [hk']))
    rcases hk : k with _ | _ | _
    · exact absurd rfl (hk ▸ h k (by simp))
    · simp [countFin, countSkip, List.filter_cons] at hrest ⊢
      omega
    · simp [countFin, countSkip, List.filter_cons] at hrest ⊢
      omega

/-- C10: in a run whose element waits all succeed, the announced progress
counters are exactly `countersFrom 1` over the iteration outcomes: each log is
announced with `1 +` the number of previously finished logs, the counter is
not incremented by a skip, the log after a skipped log is announced with the
same index as the skipped one, and once any earlier log was skipped the
announced index no longer equals the log's 1-based position. -/
theorem progress_counter_behavior (encType : String) (logs : List (String × LogEnv))
    (h : ∀ p ∈ logs, envOk p.2 = true) :
    runBegins encType logs = countersFrom 1 (runKinds encType logs) ∧
    (∀ i, i < (runKinds encType logs).length →
      (runBegins encType logs)[i]? =
        some (1 + countFin ((runKinds encType logs).take i))) ∧
    (∀ i, i + 1 < (runKinds encType logs).length →
      (runKinds encType logs)[i]? = some StepKind.skipped →
      (runBegins encType logs)[i + 1]? = (runBegins encType logs)[i]?) ∧
    (∀ i, i < (runKinds encType logs).length →
      (∃ j, j < i ∧ (runKinds encType logs)[j]? = some StepKind.skipped) →
      (runBegins encType logs)[i]? ≠ some (i + 1)) := by
  have hb : runBegins encType logs = countersFrom 1 (runKinds encType logs) :=
    beginsOf_parseLogsAux encType logs.length logs ⟨[], 1⟩ h
  refine ⟨hb, ?_, ?_, ?_⟩
  · intro i hi
    rw [hb]
    exact countersFrom_getElem _ 1 i hi
  · intro i hi hk
    rw [hb, countersFrom_getElem _ 1 (i + 1) hi,
      countersFrom_getElem _ 1 i (by omega)]
    have htake : (runKinds encType logs).take (i + 1) =
        (runKinds encType logs).take i ++ [StepKind.skipped] := by
      rw [List.take_succ, hk]
      rfl
    rw [htake]
    simp [countFin, List.filter_append]
  · intro i hi hex
    obtain ⟨j, hj, hjskip⟩ := hex
    rw [hb, countersFrom_getElem _ 1 i hi]
    intro heq
    have heq' : 1 + countFin ((runKinds encType logs).take i) = i + 1 := by
      simpa using heq
    have hmem : StepKind.skipped ∈ (runKinds encType logs).take i :=
      List.getElem?_mem (by rw [List.getElem?_take_of_lt hj]; exact hjskip)
    have hnof : ∀ k ∈ (runKinds encType logs).take i, k ≠ StepKind.fatal := by
      intro k hk'
      exact kindsOf_no_fatal encType logs.length logs ⟨[], 1⟩ h k
        (List.mem_of_mem_take hk')
    have hsum := countFin_add_countSkip _ hnof
    have hpos : 0 < countSkip ((runKinds encType logs).take i) := by
      have hmf : StepKind.skipped ∈ ((runKinds encType logs).take i).filter
          (fun k =>
            match k with
            | StepKind.skipped => true
            | _ => false) := List.mem_filter.mpr ⟨hmem, rfl⟩
      exact List.length_pos.mpr (List.ne_nil_of_mem hmf)
    have hlen : ((runKinds encType logs).take i).length ≤ i :=
      List.length_take_le i (runKinds encType logs)
    omega

/-- C10 witness: a three-log batch whose middle log mismatches announces the
third log with index 2, not its 1-based position 3. -/
theorem progress_counter_behavior_witness :
    (runBegins "all"
      [("A", ⟨"\"Paladin\",\"Warrior\"", true, true, true⟩),
       ("B", ⟨"\"Paladin\",\"Scholar\"", true, true, true⟩),
       ("C", ⟨"\"Warrior\",\"Paladin\"", true, true, true⟩)])[2]? ≠ some 3 :=
  (progress_counter_behavior "all"
    [("A", ⟨"\"Paladin\",\"Warrior\"", true, true, true⟩),
     ("B", ⟨"\"Paladin\",\"Scholar\"", true, true, true⟩),
     ("C", ⟨"\"Warrior\",\"Paladin\"", true, true, true⟩)]
    (by decide)).2.2.2 2 (by decide) ⟨1, by omega, by decide⟩

/-! ## C8, C9 -/

/-- C8: constructing the abort-based scraper with an encounter-type string
other than all, kills or wipes raises before the driver is started (so before
any navigation is possible); the three recognized values construct without
raising, with their documented filter codes. -/
theorem init_validates_enc_type :
    (∀ t : String, t ≠ "all" → t ≠ "kills" → t ≠ "wipes" →
      scraping2_init t = Except.error "Select a valid encounter type.") ∧
    scraping2_init "wipes" = Except.ok (0, [InitEv.startDriver]) ∧
    scraping2_init "kills" = Except.ok (1, [InitEv.startDriver]) ∧
    scraping2_init "all" = Except.ok (2, [InitEv.startDriver]) := by
  refine ⟨?_, rfl, rfl, rfl⟩
  intro t h1 h2 h3
  unfold scraping2_init init_enc_type
  rw [if_neg h3, if_neg h2, if_neg h1]

/-- C8 witness: an unrecognized encounter-type string raises. -/
theorem init_validates_enc_type_witness :
    scraping2_init "bogus" = Except.error "Select a valid encounter type." :=
  init_validates_enc_type.1 "bogus" (by decide) (by decide) (by decide)

/-- C9: construction of the skip-based scraper unlinks every file of the csv
download directory, and every unlink event precedes the driver start — the
previous run's exports are destroyed before the browser session exists. -/
theorem init_clears_csv_before_driver (csvPath : String) (files : List String) :
    (∀ f ∈ files,
      InitEv.unlinkFile (pathJoin csvPath f) ∈ scraping_init_events csvPath files) ∧
    (∀ i : Nat, (scraping_init_events csvPath files)[i]? = some InitEv.startDriver →
      ∀ (j : Nat) (p : String), (scraping_init_events csvPath files)[j]? =
        some (InitEv.unlinkFile p) → j < i) := by
  constructor
  · intro f hf
    unfold scraping_init_events
    exact List.mem_append_left _ (List.mem_map.mpr ⟨f, hf, rfl⟩)
  · intro i hi j p hj
    have hlen : (files.map (fun f => InitEv.unlinkFile (pathJoin csvPath f))).length =
        files.length := List.length_map _ _
    have hA : files.length ≤ i := by
      by_contra hlt
      push_neg at hlt
      unfold scraping_init_events at hi
      rw [List.getElem?_append_left (by rw [hlen]; exact hlt),
        List.getElem?_map] at hi
      rcases hfi : files[i]? with _ | f
      · rw [hfi] at hi; exact Option.noConfusion hi
      · rw [hfi] at hi
        exact InitEv.noConfusion (Option.some.inj hi)
    have hB : j < files.length := by
      by_contra hge
      push_neg at hge
      unfold scraping_init_events at hj
      rw [List.getElem?_append_right (by rw [hlen]; exact hge), hlen] at hj
      rcases hd : j - files.length with _ | d
      · rw [hd] at hj
        exact InitEv.noConfusion (Option.some.inj hj)
      · rcases d with _ | d'
        · rw [hd] at hj
          exact InitEv.noConfusion (Option.some.inj hj)
        · rw [hd] at hj
          exact Option.noConfusion hj
    omega

/-- C9 witness: concrete construction with two stale csv files unlinks both
before the driver start. -/
theorem init_clears_csv_before_driver_witness :
    InitEv.unlinkFile (pathJoin "data/csv" "old1.csv") ∈
      scraping_init_events "data/csv" ["old1.csv", "old2.csv"] :=
  (init_clears_csv_before_driver "data/csv" ["old1.csv", "old2.csv"]).1
    "old1.csv" (by decide)

/-! ## C6: the damage-to-healing URL substitution -/

/-- The damage-view marker without the ampersand. -/
def dmgMark : List Char := "type=damage-done".data

/-- The damage-view query parameter replaced by `to_healing_done`. -/
def ampDmgMark : List Char := "&type=damage-done".data

/-- The healing-view marker without the ampersand. -/
def healMark : List Char := "type=healing".data

/-- The healing-view query parameter substituted by `to_healing_done`. -/
def ampHealMark : List Char := "&type=healing".data

theorem startsWithL_iff : ∀ {p s : List Char},
    startsWithL p s = true ↔ ∃ t, s = p ++ t := by
  intro p
  induction p with
  | nil =>
    intro s
    simp [startsWithL]
  | cons a as ih =>
    intro s
    cases s with
    | nil =>
      simp [startsWithL]
    | cons b bs =>
      simp only [startsWithL, Bool.and_eq_true, decide_eq_true_eq, ih]
      constructor
      · rintro ⟨hab, t, ht⟩
        exact ⟨t, by rw [hab, ht]; rfl⟩
      · rintro ⟨t, ht⟩
        rw [List.cons_append] at ht
        exact ⟨(List.cons.inj ht).1.symm, t, (List.cons.inj ht).2⟩

theorem hasSubstr_iff : ∀ {p s : List Char},
    hasSubstr p s = true ↔ ∃ u t, s = u ++ (p ++ t) := by
  intro p s
  induction s with
  | nil =>
    simp only [hasSubstr, startsWithL_iff]
    constructor
    · rintro ⟨t, ht⟩
      exact ⟨[], t, ht⟩
    · rintro ⟨u, t, ht⟩
      rcases u with _ | ⟨c, u⟩
      · exact ⟨t, ht⟩
      · exact absurd ht (by simp)
  | cons c cs ih =>
    simp only [hasSubstr, Bool.or_eq_true, startsWithL_iff, ih]
    constructor
    · rintro (⟨t, ht⟩ | ⟨u, t, ht⟩)
      · exact ⟨[], t, ht⟩
      · exact ⟨c :: u, t, by rw [List.cons_append, ht]⟩
    · rintro ⟨u, t, ht⟩
      rcases u with _ | ⟨d, u⟩
      · exact Or.inl ⟨t, ht⟩
      · rw [List.cons_append] at ht
        exact Or.inr ⟨u, t, (List.cons.inj ht).2⟩

theorem hasSubstr_append_right {p b : List Char} (h : hasSubstr p b = true) :
    ∀ a : List Char, hasSubstr p (a ++ b) = true
  | [] => h
  | c :: a' => by
    simp only [List.cons_append, hasSubstr, Bool.or_eq_true]
    exact Or.inr (hasSubstr_append_right h a')

theorem hasSubstr_cons_false {p : List Char} {c : Char} {cs : List Char}
    (h : hasSubstr p (c :: cs) = false) : hasSubstr p cs = false := by
  simp only [hasSubstr, Bool.or_eq_false_iff] at h
  exact h.2

/-- The pattern has no nontrivial self-overlap: no proper nonempty suffix of
the marker is a prefix of the marker. -/
theorem ampDmgMark_no_border :
    ∀ k : Nat, k < 17 → 0 < k → startsWithL (ampDmgMark.drop k) ampDmgMark = false := by
  decide

/-- No nonempty proper suffix of the damage marker is a prefix of the healing
parameter. -/
theorem dmgMark_no_cross :
    ∀ k : Nat, k < 16 → 0 < k → startsWithL (dmgMark.drop k) ampHealMark = false := by
  decide

/-- The first character of `s ++ "&type=damage-done"` does not start an
occurrence of the parameter unless the damage marker already occurs in `s`. -/
theorem not_startsWith_append (s : List Char) (hs : s ≠ [])
    (hno : hasSubstr dmgMark s = false) :
    startsWithL ampDmgMark (s ++ ampDmgMark) = false := by
  by_contra hsw
  rw [Bool.not_eq_false, startsWithL_iff] at hsw
  obtain ⟨t, ht⟩ := hsw
  by_cases hl : 17 ≤ s.length
  · have htake : s.take 17 = ampDmgMark := by
      have h1 : (s ++ ampDmgMark).take 17 = s.take 17 := by
        rw [List.take_append_eq_append_take]
        rw [show (17 - s.length) = 0 by omega]
        simp
      have h2 : (ampDmgMark ++ t).take 17 = ampDmgMark := by
        rw [List.take_append_eq_append_take]
        rw [show ((17 : Nat) - ampDmgMark.length) = 0 by decide]
        simp only [List.take_zero, List.append_nil]
        exact List.take_of_length_le (by decide)
      rw [ht] at h1
      rw [h1] at h2
      exact h2
    have hsplit : s = ampDmgMark ++ s.drop 17 := by
      rw [← htake]
      exact (List.take_append_drop 17 s).symm
    have : hasSubstr dmgMark s = true := by
      rw [hasSubstr_iff]
      refine ⟨[Char.ofNat 38], s.drop 17, ?_⟩
      rw [hsplit]
      rfl
    rw [this] at hno
    exact Bool.noConfusion hno
  · push_neg at hl
    have hdrop : ampDmgMark = ampDmgMark.drop s.length ++ t := by
      have h1 : (s ++ ampDmgMark).drop s.length = ampDmgMark := List.drop_left s ampDmgMark
      have h2 : (ampDmgMark ++ t).drop s.length =
          ampDmgMark.drop s.length ++ t := by
        rw [List.drop_append_eq_append_drop]
        rw [show (s.length - ampDmgMark.length) = 0 by
          have : ampDmgMark.length = 17 := by decide
          omega]
        rw [List.drop_zero]
      rw [ht] at h1
      rw [h1] at h2
      exact h2
    have hb : startsWithL (ampDmgMark.drop s.length) ampDmgMark = true :=
      startsWithL_iff.mpr ⟨t, hdrop⟩
    have hslen : 0 < s.length := List.length_pos.mpr hs
    rw [ampDmgMark_no_border s.length (by
      have : ampDmgMark.length = 17 := by decide
      omega) hslen] at hb
    exact Bool.noConfusion hb

/-- Replacing the appended damage parameter in `s ++ "&type=damage-done"`
yields `s ++ "&type=healing"` whenever the damage marker does not occur in
`s`: the scan finds exactly the appended occurrence. -/
theorem replace_append_amp : ∀ s : List Char, hasSubstr dmgMark s = false →
    replaceAllAux ampDmgMark ampHealMark (s.length + 17) (s ++ ampDmgMark) =
      s ++ ampHealMark
  | [], _ => by decide
  | c :: s', hno => by
    have hsw : startsWithL ampDmgMark ((c :: s') ++ ampDmgMark) = false :=
      not_startsWith_append (c :: s') (by simp) hno
    show replaceAllAux ampDmgMark ampHealMark (s'.length + 17 + 1)
        (c :: (s' ++ ampDmgMark)) = c :: (s' ++ ampHealMark)
    rw [replaceAllAux]
    rw [show (ampDmgMark ≠ [] && startsWithL ampDmgMark (c :: (s' ++ ampDmgMark))) =
        false by rw [← List.cons_append, hsw, Bool.and_false]]
    rw [if_neg (by simp)]
    rw [replace_append_amp s' (hasSubstr_cons_false hno)]

/-- Decomposition of an occurrence in an appended list: it lies in the left
part, in the right part, or straddles the boundary — in which case a nonempty
proper suffix of the pattern is a prefix of the right part. -/
theorem hasSubstr_append_cases : ∀ (a b p : List Char),
    hasSubstr p (a ++ b) = true →
    hasSubstr p a = true ∨ hasSubstr p b = true ∨
      ∃ k : Nat, 0 < k ∧ k < p.length ∧ startsWithL (p.drop k) b = true
  | [], b, p, h => Or.inr (Or.inl h)
  | c :: a', b, p, h => by
    rw [List.cons_append, hasSubstr, Bool.or_eq_true] at h
    rcases h with hsw | hsub
    · by_cases hl : p.length ≤ (c :: a').length
      · left
        rw [← List.cons_append] at hsw
        rw [startsWithL_iff] at hsw
        obtain ⟨t, ht⟩ := hsw
        have htake : (c :: a').take p.length = p := by
          have h1 : ((c :: a') ++ b).take p.length = (c :: a').take p.length := by
            rw [List.take_append_eq_append_take]
            rw [show (p.length - (c :: a').length) = 0 by omega]
            simp
          have h2 : (p ++ t).take p.length = p := by
            rw [List.take_append_eq_append_take]
            simp
          rw [ht] at h1
          rw [h1] at h2
          exact h2
        have hsplit : c :: a' = p ++ (c :: a').drop p.length := by
          conv_lhs => rw [← List.take_append_drop p.length (c :: a')]
          rw [htake]
        have : hasSubstr p (c :: a') = true := by
          rw [hasSubstr_iff]
          exact ⟨[], (c :: a').drop p.length, by simpa using hsplit⟩
        exact this
      · push_neg at hl
        right; right
        refine ⟨(c :: a').length, by simp, hl, ?_⟩
        rw [← List.cons_append, startsWithL_iff] at hsw
        obtain ⟨t, ht⟩ := hsw
        have h1 : ((c :: a') ++ b).drop (c :: a').length = b :=
          List.drop_left (c :: a') b
        have h2 : (p ++ t).drop (c :: a').length =
            p.drop (c :: a').length ++ t := by
          rw [List.drop_append_eq_append_drop]
          rw [show ((c :: a').length - p.length) = 0 by omega]
          rw [List.drop_zero]
        rw [ht] at h1
        rw [h1] at h2
        exact startsWithL_iff.mpr ⟨t, h2⟩
    · rcases hasSubstr_append_cases a' b p hsub with hx | hx | hx
      · left
        rw [hasSubstr, Bool.or_eq_true]
        exact Or.inr hx
      · exact Or.inr (Or.inl hx)
      · exact Or.inr (Or.inr hx)

/-- C6 counterexample: a log URL that itself contains the damage marker gives
a damage URL whose healing URL still contains `type=damage-done` — the claim
that the healing URL never contains that substring is false. -/
theorem to_healing_done_counter :
    hasSubstr dmgMark
      (to_healing_done_url (to_damage_dealt_url
        (to_summary_url "http://log/type=damage-done" "all"))).data = true := by decide

/-- C6 amended: for every damage URL built by appending the damage parameter
to a URL that does not already contain the damage marker, the healing URL is
the exact string substitution — the damage parameter replaced by the healing
parameter — so it contains `type=healing` and no longer contains
`type=damage-done`. -/
theorem to_healing_done_grammar (sumUrl : String)
    (h : hasSubstr dmgMark sumUrl.data = false) :
    to_healing_done_url (to_damage_dealt_url sumUrl) = sumUrl ++ "&type=healing" ∧
    hasSubstr healMark
      (to_healing_done_url (to_damage_dealt_url sumUrl)).data = true ∧
    hasSubstr dmgMark
      (to_healing_done_url (to_damage_dealt_url sumUrl)).data = false := by
  have hdata : (to_damage_dealt_url sumUrl).data = sumUrl.data ++ ampDmgMark := rfl
  have hlen : (to_damage_dealt_url sumUrl).data.length = sumUrl.data.length + 17 := by
    rw [hdata, List.length_append]
    rfl
  have hrepl : to_healing_done_url (to_damage_dealt_url sumUrl) =
      sumUrl ++ "&type=healing" := by
    show String.mk (replaceAllAux ampDmgMark ampHealMark
      (to_damage_dealt_url sumUrl).data.length (to_damage_dealt_url sumUrl).data) =
      sumUrl ++ "&type=healing"
    rw [hlen, hdata, replace_append_amp sumUrl.data h]
    rfl
  refine ⟨hrepl, ?_, ?_⟩
  · rw [hrepl]
    show hasSubstr healMark (sumUrl.data ++ ampHealMark) = true
    exact hasSubstr_append_right (by decide) sumUrl.data
  · rw [hrepl]
    show hasSubstr dmgMark (sumUrl.data ++ ampHealMark) = false
    by_contra hc
    rw [Bool.not_eq_false] at hc
    rcases hasSubstr_append_cases sumUrl.data ampHealMark dmgMark hc with hx | hx | hx
    · rw [hx] at h; exact Bool.noConfusion h
    · exact Bool.noConfusion ((by decide : hasSubstr dmgMark ampHealMark = false) ▸ hx)
    · obtain ⟨k, hk0, hk16, hksw⟩ := hx
      rw [dmgMark_no_cross k (by
        have : dmgMark.length = 16 := by decide
        omega) hk0] at hksw
      exact Bool.noConfusion hksw

/-- C6 witness: the substitution on a clean summary URL. -/
theorem to_healing_done_grammar_witness :
    to_healing_done_url (to_damage_dealt_url "URL#boss=-2") =
      "URL#boss=-2" ++ "&type=healing" :=
  (to_healing_done_grammar "URL#boss=-2" (by decide)).1

end FFLogs
